import Mathlib

/-!
Shallow embedding of `src/src/BigInt.c` (cburggie/libbigint).

A chunk is modelled as the list of its valid words (`chunk->value[0 .. chunk->length)`),
so a chunk's `length` field is the list length.  Words are `unsigned int` (32-bit)
values, modelled as `Nat` reduced modulo `2^32` wherever the C arithmetic wraps.
The chunk chain reachable from `self->first` is a `List` of chunks; `self->last` is a
pointer into that chain (or NULL), modelled as an optional index; `self->length` and
`self->parity` are the `int` fields of `struct BigInt`.

The chunk word capacity `CHUNKSIZE` comes from the external `Chunk.h` (not part of
`src/`), so it is kept as an explicit parameter.  Functions that can dereference a
null pointer or run out of a loop's reach return `Option`, with `none` marking the
crash; the two `while` loops of `add` are given explicit fuel.
-/

namespace BigIntC

/-- Word modulus: the source stores digits in `unsigned int`; `charsPerUint` is
`2 * sizeof(unsigned int)` = 8, i.e. 32-bit words. -/
def wordMod : Nat := 4294967296

/-- BigInt.c line 42: `const static int charsPerUint = 2 * sizeof(unsigned int);`. -/
def charsPerUint : Nat := 8

/-- BigInt.c lines 43-46: the hexadecimal digit lookup table
`const static char hex[] = { '0' .. '9', 'a' .. 'f' };`. -/
def hexTable : List Char := "0123456789abcdef".toList

/-- BigInt.c lines 422-437, `uintToHex`: emits `charsPerUint` characters; step `i`
writes `hex[uint & 0x0f]` and then shifts `uint >>= 4`, so character `i` is nibble `i`
counted from the least significant end (least-significant nibble first).  The final
`target[charsPerUint] = '\0'` is accounted for once in `toStringChars` below, since in
the output buffer every such NUL except the last is overwritten by the next word. -/
def uintToHex (u : Nat) : List Char :=
  (List.range charsPerUint).map (fun i => hexTable.getD (u / 16 ^ i % 16) '0')

/-- `struct BigInt` (BigInt.c lines 14-20): `chunks` is the chain reachable from
`first` (each chunk the list of its valid words), `lastIdx` models the `last` pointer
(`some i` = points at `chunks[i]`, `none` = NULL), `lengthF` the `int length` field
(length in chunks), `parity` the unused `int parity` field. -/
structure BigIntS where
  chunks : List (List Nat)
  lastIdx : Option Nat
  lengthF : Int
  parity : Int
  deriving DecidableEq, Repr

/-- BigInt.c lines 55-86, `newBigInt`: one chunk with `length = 1`, `value[0] = 0`;
the container fields are `first = last = chunk`, `parity = 1`, `length = 1`. -/
def newBigInt : BigIntS := ⟨[[0]], some 0, 1, 1⟩

/-- BigInt.c lines 113-117, `lengthBigInt`: 0 for a NULL argument, else the stored
`length` field. -/
def lengthBigInt : Option BigIntS → Int
  | none => 0
  | some s => s.lengthF

/-- Modelled from the spec: the external chunk primitive `makeChunk()`/`newChunk()`
(`Chunk.h` is not part of `src/`): a fresh chunk with valid length 0 — no valid
words — unlinked.  Allocation is assumed to succeed. -/
def newChunk : List Nat := []

/-- Modelled from the spec: the external `trimAt`/`trimChunk` primitive (`Chunk.h` is
not part of `src/`): detaches the sub-chain after the given chunk, leaving that chunk
as the chain tail; the detached suffix is dropped (releasing it is the caller's
concern and is not observable here).  On an absent (NULL) chunk nothing happens. -/
def trimChunk (chunks : List (List Nat)) (p : Option Nat) : List (List Nat) :=
  match p with
  | none => chunks
  | some i => chunks.take (i + 1)

/-- BigInt.c lines 409-419, `append`: `self->length++; chunk->prev = self->last;
self->last->next = chunk; self->last = chunk;`.  When `last` is NULL the line
`self->last->next = chunk` dereferences a null pointer (`none`).  When `last` is not
the actual chain tail, overwriting `last->next` makes the old suffix after `last`
unreachable, hence `take (i+1)`. -/
def append (s : BigIntS) (c : List Nat) : Option BigIntS :=
  match s.lastIdx with
  | none => none
  | some i => some ⟨s.chunks.take (i + 1) ++ [c], some (i + 1), s.lengthF + 1, s.parity⟩

/-- The trim-search loop of `setValue` (BigInt.c lines 132-138):
`int i = 0; Chunk *p = self->first; while (i < numChunks && p) { p = p->next; }` —
`i` is never incremented, so when `numChunks > 0` the walk only stops once `p` has run
off the end of the chain (`p = NULL`, i.e. `none`), and when `numChunks = 0` the loop
body never runs and `p` stays at the first chunk (NULL only if the chain is empty). -/
def trimSearch (chunks : List (List Nat)) (numChunks : Nat) : Option Nat :=
  if 0 < numChunks then none
  else if chunks.isEmpty then none
  else some 0

/-- The extension loop of `setValue` (BigInt.c lines 146-149):
`while (self->length < numChunks) append(self, newChunk());` run for its
`numChunks - self->length` iterations; a crashing `append` propagates as `none`. -/
def extendLoop (s : BigIntS) : Nat → Option BigIntS
  | 0 => some s
  | k + 1 =>
    match append s newChunk with
    | none => none
    | some s2 => extendLoop s2 k

/-- The copy loop of `setValue` (BigInt.c lines 151-166): every chunk still in the
chain gets `chunk->length = MIN(CHUNKSIZE, length)` — `length` is the *total* word
count parameter returned to on every iteration, it is never reduced by the words
already copied — and that many words are copied from `value` at the running array
index `arrayIndex`.  Reads past the end of the caller's array (index `≥` the word
count) are out of bounds in C; they are modelled as the default 0. -/
def copyChunks (CHUNKSIZE len : Nat) (value : List Nat) :
    List (List Nat) → Nat → List (List Nat)
  | [], _ => []
  | _ :: rest, ai =>
    let n := min CHUNKSIZE len
    ((List.range n).map (fun j => value.getD (ai + j) 0))
      :: copyChunks CHUNKSIZE len value rest (ai + n)

/-- BigInt.c lines 121-170, `setValue` (the public `bulkLoad`):
`numChunks = length / CHUNKSIZE` plus one if there is a remainder; if the stored
chunk count exceeds `numChunks` run the (broken) trim search, set `last` to its
result, `trimChunk` there and store `numChunks` in the length field; otherwise append
fresh chunks until the stored count reaches `numChunks`; finally run the copy loop
over every chunk reachable from `first`. -/
def setValue (CHUNKSIZE : Nat) (s : BigIntS) (len : Nat) (value : List Nat) :
    Option BigIntS :=
  let numChunks : Nat := len / CHUNKSIZE + (if len % CHUNKSIZE = 0 then 0 else 1)
  let s1opt : Option BigIntS :=
    if (numChunks : Int) < s.lengthF then
      let p := trimSearch s.chunks numChunks
      some ⟨trimChunk s.chunks p, p, (numChunks : Int), s.parity⟩
    else
      extendLoop s ((numChunks : Int) - s.lengthF).toNat
  match s1opt with
  | none => none
  | some s1 => some ⟨copyChunks CHUNKSIZE len value s1.chunks 0, s1.lastIdx, s1.lengthF, s1.parity⟩

/-- All valid words of the container in storage order (head chunk first), i.e. the
digit sequence least-significant word first. -/
def wordsOf (s : BigIntS) : List Nat := s.chunks.flatten

/-- The base-2^32 numeric value represented by a word sequence, least-significant
word first. -/
def wordsValue : List Nat → Nat
  | [] => 0
  | w :: ws => w + wordMod * wordsValue ws

/-- The base-2^32 numeric value represented by a container's word sequence. -/
def valueOf (s : BigIntS) : Nat := wordsValue (wordsOf s)

/-- BigInt.c lines 174-199, `toString`: the character content written into the output
buffer: for each chunk from `first`, for each valid word, the `charsPerUint`
characters of `uintToHex`, each word's trailing NUL being overwritten by the next
word's first character, so only the final NUL survives.  If the container holds no
valid word at all, nothing is written and the (uninitialized) buffer content is
modelled as the empty list. -/
def toStringChars (s : BigIntS) : List Char :=
  match wordsOf s with
  | [] => []
  | ws => (ws.map uintToHex).flatten ++ [Char.ofNat 0]

/-- BigInt.c line 179: the allocated output size
`int numChars = 1 + self->length * CHUNKSIZE;` (no `charsPerUint` factor). -/
def toStringNumChars (CHUNKSIZE : Nat) (s : BigIntS) : Int :=
  1 + s.lengthF * CHUNKSIZE

/-- The buffer size the spec requires for `render`:
`(chunk-count * C) * hexCharsPerWord + 1`. -/
def specNumChars (CHUNKSIZE : Nat) (s : BigIntS) : Int :=
  s.lengthF * CHUNKSIZE * charsPerUint + 1

/-- The valid length of chunk `i` of a chain (`chunk->length`; 0 when the index is
off the chain, which call sites never do). -/
def chunkLen (chunks : List (List Nat)) (i : Nat) : Nat := (chunks.getD i []).length

/-- The do-while of `IT_next` (BigInt.c lines 321-325): starting at chunk index `j`,
walk forward to the first chunk with nonzero valid length; `none` when every further
chunk is empty or the chain is exhausted. -/
def nextNonempty (chunks : List (List Nat)) (j : Nat) : Option Nat :=
  ((chunks.drop j).findIdx? (fun c => !c.isEmpty)).map (fun k => j + k)

/-- BigInt.c lines 278-299, `iterate`: position at the first chunk with nonzero valid
length, offset 0 (`none` = the cursor's `chunk` is NULL, i.e. exhausted).  The
iterator handle's allocation is assumed to succeed. -/
def iterate (chunks : List (List Nat)) : Option (Nat × Nat) :=
  (nextNonempty chunks 0).map (fun ci => (ci, 0))

/-- BigInt.c lines 303-332, `IT_next` for a positioned cursor: `self->index++`; when
the new index reaches the current chunk's valid length, reset it to 0 and advance to
the next chunk with nonzero valid length, or to exhausted (`none`). -/
def IT_next (chunks : List (List Nat)) : Nat × Nat → Option (Nat × Nat)
  | (ci, idx) =>
    if idx + 1 ≥ chunkLen chunks ci then
      match nextNonempty chunks (ci + 1) with
      | none => none
      | some ci2 => some (ci2, 0)
    else
      some (ci, idx + 1)

/-- BigInt.c lines 379-389, `IT_get` for a positioned cursor: `chunk->value[index]`
(`add` only calls it with the cursor's chunk present; on an exhausted cursor the
source returns 0, which never arises at these call sites). -/
def IT_get (chunks : List (List Nat)) : Nat × Nat → Nat
  | (ci, idx) => (chunks.getD ci []).getD idx 0

/-- BigInt.c lines 368-375, `IT_set` for a positioned cursor:
`chunk->value[index] = value`. -/
def IT_set (chunks : List (List Nat)) : Nat × Nat → Nat → List (List Nat)
  | (ci, idx), v => chunks.set ci ((chunks.getD ci []).set idx v)

/-- BigInt.c lines 336-364, `IT_next_with_extend`: first try `IT_next`; on
exhaustion, reposition at `self->obj->last` and test
`if (!self->chunk && self->chunk->length < CHUNKSIZE)` — the null test is
*inverted*: when `last` is NULL the second conjunct dereferences a null pointer
(crash, `none`), and when `last` is present `!self->chunk` is false, so the
extend-in-place branch (lines 346-348) is dead and the else branch always runs:
build a fresh chunk with `value[0] = 0`, `length = 1`, append it, and position the
cursor at its word 0 (index `i + 1` after `append` keeps chunks `0..i`). -/
def IT_next_with_extend (s : BigIntS) (pos : Nat × Nat) :
    Option (BigIntS × Nat × Nat) :=
  match IT_next s.chunks pos with
  | some p2 => some (s, p2.1, p2.2)
  | none =>
    match s.lastIdx with
    | none => none
    | some i =>
      match append s [0] with
      | none => none
      | some s2 => some (s2, i + 1, 0)

/-- The main loop of `add` (BigInt.c lines 243-256) for *distinct* containers: the
addend chain `argChunks` is immutable while the accumulator mutates through its own
cursor.  Loop while the addend cursor has a chunk: `lv = IT_get(li); rv = IT_get(ri);
sum = carry + lv + rv` (wrapping); `carry = (sum < lv || sum < rv) ? 1 : 0`;
`IT_set(li, sum); IT_next_with_extend(li); IT_next(ri);`.  Fuel-indexed; `none` is
fuel exhaustion or a crash inside the growth path. -/
def addMainLoop (argChunks : List (List Nat)) :
    Nat → BigIntS → Nat × Nat → Option (Nat × Nat) → Nat →
    Option (BigIntS × (Nat × Nat) × Nat)
  | 0, _, _, _, _ => none
  | _ + 1, acc, li, none, carry => some (acc, li, carry)
  | fuel + 1, acc, li, some rpos, carry =>
    let lv := IT_get acc.chunks li
    let rv := IT_get argChunks rpos
    let sum := (carry + lv + rv) % wordMod
    let carry2 := if sum < lv || sum < rv then 1 else 0
    let acc2 : BigIntS := ⟨IT_set acc.chunks li sum, acc.lastIdx, acc.lengthF, acc.parity⟩
    match IT_next_with_extend acc2 li with
    | none => none
    | some (acc3, ci, idx) =>
      addMainLoop argChunks fuel acc3 (ci, idx) (IT_next argChunks rpos) carry2

/-- The trailing carry loop of `add` (BigInt.c lines 258-269): while `carry` is
nonzero, `lv = IT_get(li); sum = carry + lv` (wrapping); `IT_set(li, sum)`; if
`sum > 0` the carry is absorbed and the loop ends, else advance with growth and
ripple on. -/
def addCarryLoop : Nat → BigIntS → Nat × Nat → Nat → Option BigIntS
  | 0, _, _, _ => none
  | _ + 1, acc, _, 0 => some acc
  | fuel + 1, acc, li, carry + 1 =>
    let lv := IT_get acc.chunks li
    let sum := (carry + 1 + lv) % wordMod
    let acc2 : BigIntS := ⟨IT_set acc.chunks li sum, acc.lastIdx, acc.lengthF, acc.parity⟩
    if sum > 0 then some acc2
    else
      match IT_next_with_extend acc2 li with
      | none => none
      | some (acc3, ci, idx) => addCarryLoop fuel acc3 (ci, idx) (carry + 1)

/-- BigInt.c lines 203-272, `add`, for *distinct* containers `self` and `arg`:
open both cursors; if the accumulator cursor has no chunk (container all empty),
synthesize a one-word zero chunk, append it and position there (lines 235-241); run
the main loop from carry 0, then the trailing carry loop; the mutated accumulator is
the returned value. -/
def add (fuel : Nat) (self arg : BigIntS) : Option BigIntS :=
  let ri := iterate arg.chunks
  match iterate self.chunks with
  | some lpos =>
    match addMainLoop arg.chunks fuel self lpos ri 0 with
    | none => none
    | some (acc, li, carry) => addCarryLoop fuel acc li carry
  | none =>
    match self.lastIdx with
    | none => none
    | some i =>
      match append self [0] with
      | none => none
      | some s2 =>
        match addMainLoop arg.chunks fuel s2 (i + 1, 0) ri 0 with
        | none => none
        | some (acc, li, carry) => addCarryLoop fuel acc li carry

/-- The main loop of `add` when both arguments are the *same* container
(`add(a, a)`): both cursors index into the one mutating chain, so `rv` is read from
the accumulator's current chunks and, after `IT_next_with_extend(li)` has possibly
grown the chain, `IT_next(ri)` walks that *new* chain. -/
def addAliasedMainLoop :
    Nat → BigIntS → Nat × Nat → Option (Nat × Nat) → Nat →
    Option (BigIntS × (Nat × Nat) × Nat)
  | 0, _, _, _, _ => none
  | _ + 1, acc, li, none, carry => some (acc, li, carry)
  | fuel + 1, acc, li, some rpos, carry =>
    let lv := IT_get acc.chunks li
    let rv := IT_get acc.chunks rpos
    let sum := (carry + lv + rv) % wordMod
    let carry2 := if sum < lv || sum < rv then 1 else 0
    let acc2 : BigIntS := ⟨IT_set acc.chunks li sum, acc.lastIdx, acc.lengthF, acc.parity⟩
    match IT_next_with_extend acc2 li with
    | none => none
    | some (acc3, ci, idx) =>
      addAliasedMainLoop fuel acc3 (ci, idx) (IT_next acc3.chunks rpos) carry2

/-- BigInt.c lines 203-272, `add`, in the aliased call `add(a, a)`: same code as
`add`, with both cursors opened over the one container. -/
def addAliased (fuel : Nat) (self : BigIntS) : Option BigIntS :=
  let ri := iterate self.chunks
  match iterate self.chunks with
  | some lpos =>
    match addAliasedMainLoop fuel self lpos ri 0 with
    | none => none
    | some (acc, li, carry) => addCarryLoop fuel acc li carry
  | none =>
    match self.lastIdx with
    | none => none
    | some i =>
      match append self [0] with
      | none => none
      | some s2 =>
        match addAliasedMainLoop fuel s2 (i + 1, 0) ri 0 with
        | none => none
        | some (acc, li, carry) => addCarryLoop fuel acc li carry

/-- BigInt.c line 248: the wrapping word sum `sum = carry + lv + rv` of the main
loop of `add`. -/
def addWordSum (carry lv rv : Nat) : Nat := (carry + lv + rv) % wordMod

/-- BigInt.c lines 250-251: the new carry computed by the overflow test
`if (sum < lv || sum < rv) carry = 1; else carry = 0;`. -/
def newCarry (carry lv rv : Nat) : Nat :=
  if addWordSum carry lv rv < lv || addWordSum carry lv rv < rv then 1 else 0

/-- The true carry-out of the word addition `carry + lv + rv` at width 32. -/
def specCarryOut (carry lv rv : Nat) : Nat :=
  if wordMod ≤ carry + lv + rv then 1 else 0

/-- The container invariant from the spec: every chunk except the last has valid
length exactly `CHUNKSIZE` (interior chunks are always full). -/
def interiorFull (CHUNKSIZE : Nat) (s : BigIntS) : Prop :=
  ∀ c ∈ s.chunks.dropLast, c.length = CHUNKSIZE

instance (CHUNKSIZE : Nat) (s : BigIntS) : Decidable (interiorFull CHUNKSIZE s) := by
  unfold interiorFull
  infer_instance

/-- The spec's per-word rendering (section 4.4): `2 * (word bit-width / 8)` lowercase
hexadecimal characters, most-significant nibble first, zero-padded. -/
def specWordHex (w : Nat) : List Char :=
  (List.range charsPerUint).map
    (fun i => hexTable.getD (w / 16 ^ (charsPerUint - 1 - i) % 16) '0')

/-! ## Theorems -/

/-- C1: for distinct valid containers, `add(a, b)` is supposed to leave `a`
representing the sum of the original values; the carry test on line 250 misses the
carry produced at a position where the carry-in is 1 and both words are
`0xffffffff`, so with CHUNKSIZE = 2 and `a = [0xffffffff, 0xffffffff]`,
`b = [0x00000001, 0xffffffff]` (both built by `setValue` from a fresh container),
the mutated accumulator represents `2^64 - 2^32` instead of the true sum
`2^65 - 2^32`. -/
theorem add_drops_carry_at_saturated_position :
    setValue 2 newBigInt 2 [4294967295, 4294967295]
      = some ⟨[[4294967295, 4294967295]], some 0, 1, 1⟩ ∧
    setValue 2 newBigInt 2 [1, 4294967295]
      = some ⟨[[1, 4294967295]], some 0, 1, 1⟩ ∧
    add 10 ⟨[[4294967295, 4294967295]], some 0, 1, 1⟩ ⟨[[1, 4294967295]], some 0, 1, 1⟩
      = some ⟨[[0, 4294967295], [0]], some 1, 2, 1⟩ ∧
    valueOf ⟨[[4294967295, 4294967295]], some 0, 1, 1⟩
        + valueOf ⟨[[1, 4294967295]], some 0, 1, 1⟩ = 36893488143124135936 ∧
    valueOf ⟨[[0, 4294967295], [0]], some 1, 2, 1⟩ = 18446744069414584320 ∧
    valueOf ⟨[[0, 4294967295], [0]], some 1, 2, 1⟩
      ≠ valueOf ⟨[[4294967295, 4294967295]], some 0, 1, 1⟩
          + valueOf ⟨[[1, 4294967295]], some 0, 1, 1⟩ := by
  refine ⟨by decide, by decide, by decide, by decide, by decide, by decide⟩

/-- C2, counterexample: at carry-in 1 with both words `0xffffffff` the wrapped sum
equals `lv` (and `rv`), so the test `sum < lv || sum < rv` reports no overflow even
though the true carry-out of `1 + 0xffffffff + 0xffffffff` is 1. -/
theorem carry_test_wrong_at_double_saturation :
    newCarry 1 4294967295 4294967295 = 0 ∧
    specCarryOut 1 4294967295 4294967295 = 1 ∧
    newCarry 1 4294967295 4294967295 ≠ specCarryOut 1 4294967295 4294967295 := by
  refine ⟨by decide, by decide, by decide⟩

/-- C2, amended: for every carry in {0,1} and words `lv, rv < 2^32`, the overflow
test `sum < lv || sum < rv` on the wrapped sum computes the true carry-out of
`carry + lv + rv` *except* in the single excluded case `carry = 1` and
`lv = rv = 2^32 - 1`, where the true carry-out is 1 but the test yields 0. -/
theorem carry_test_correct_outside_double_saturation (carry lv rv : Nat)
    (hc : carry ≤ 1) (hl : lv < wordMod) (hr : rv < wordMod)
    (hx : ¬(carry = 1 ∧ lv = wordMod - 1 ∧ rv = wordMod - 1)) :
    newCarry carry lv rv = specCarryOut carry lv rv := by
  unfold newCarry specCarryOut addWordSum wordMod at *
  rcases Nat.lt_or_ge (carry + lv + rv) 4294967296 with h | h
  · rw [Nat.mod_eq_of_lt h]
    have h1 : ¬(carry + lv + rv < lv ∨ carry + lv + rv < rv) := by omega
    have h2 : ¬(4294967296 ≤ carry + lv + rv) := by omega
    simp only [Bool.or_eq_true, decide_eq_true_eq]
    rw [if_neg h1, if_neg h2]
  · have hlt : carry + lv + rv - 4294967296 < 4294967296 := by omega
    have hm : (carry + lv + rv) % 4294967296 = carry + lv + rv - 4294967296 := by
      rw [Nat.mod_eq_sub_mod h, Nat.mod_eq_of_lt hlt]
    rw [hm]
    have h1 : carry + lv + rv - 4294967296 < lv ∨ carry + lv + rv - 4294967296 < rv := by
      omega
    simp only [Bool.or_eq_true, decide_eq_true_eq]
    rw [if_pos h1, if_pos h]

/-- C2, witness: the amended equivalence applied at carry 1, `lv = 0xffffffff`,
`rv = 0`, where the sum wraps and the test correctly reports the carry. -/
theorem carry_test_correct_outside_double_saturation_witness :
    (1 : Nat) ≤ 1 ∧ (4294967295 : Nat) < wordMod ∧ (0 : Nat) < wordMod ∧
    ¬((1 : Nat) = 1 ∧ (4294967295 : Nat) = wordMod - 1 ∧ (0 : Nat) = wordMod - 1) ∧
    newCarry 1 4294967295 0 = specCarryOut 1 4294967295 0 :=
  ⟨by decide, by decide, by decide, by decide,
    carry_test_correct_outside_double_saturation 1 4294967295 0
      (by decide) (by decide) (by decide) (by decide)⟩

/-- C3: with CHUNKSIZE = 2, a container with the single chunk `[5]` has a tail chunk
of valid length 1 < 2 (spare capacity), yet advance-with-growth from its exhausted
cursor position appends a brand-new one-word chunk (the chain grows from 1 to 2
chunks) instead of extending the tail chunk to `[5, 0]`: the inverted null test on
line 344 makes the extend-in-place branch unreachable. -/
theorem IT_next_with_extend_appends_despite_spare_capacity :
    chunkLen [[5]] 0 < 2 ∧
    IT_next_with_extend ⟨[[5]], some 0, 1, 1⟩ (0, 0)
      = some (⟨[[5], [0]], some 1, 2, 1⟩, 1, 0) ∧
    (⟨[[5], [0]], some 1, 2, 1⟩ : BigIntS).chunks.length = 2 ∧
    (⟨[[5], [0]], some 1, 2, 1⟩ : BigIntS).chunks ≠ [[5, 0]] := by
  refine ⟨by decide, by decide, by decide, by decide⟩

/-- C4: with CHUNKSIZE = 2, the container `[[1]]` satisfies the interior-chunks-full
invariant, but adding the (distinct) container `[[1]]` to it yields `[[2], [0]]`,
whose interior chunk `[2]` has valid length 1 ≠ 2: `add` does not preserve the
invariant, because its growth path always appends fresh one-word chunks. -/
theorem add_breaks_interior_full_invariant :
    interiorFull 2 ⟨[[1]], some 0, 1, 1⟩ ∧
    add 10 ⟨[[1]], some 0, 1, 1⟩ ⟨[[1]], some 0, 1, 1⟩
      = some ⟨[[2], [0]], some 1, 2, 1⟩ ∧
    ¬ interiorFull 2 ⟨[[2], [0]], some 1, 2, 1⟩ := by
  refine ⟨by decide, by decide, by decide⟩

/-- C5: with CHUNKSIZE = 2, loading 2 words (required chunk count 1) into a 2-chunk
container does not truncate: the trim-search loop never increments `i`, so `p` runs
off the chain, `last` becomes NULL and `trimChunk(NULL)` does nothing — afterwards 2
chunks are still reachable (the copy loop even refills the stale second chunk, from
out-of-range source positions), the stored count is 1, and the tail pointer is NULL
instead of pointing at the last reachable chunk. -/
theorem setValue_trim_does_not_truncate :
    setValue 2 ⟨[[1, 2], [3, 4]], some 1, 2, 1⟩ 2 [7, 8]
      = some ⟨[[7, 8], [0, 0]], none, 1, 1⟩ ∧
    (⟨[[7, 8], [0, 0]], none, 1, 1⟩ : BigIntS).chunks.length = 2 ∧
    (2 : Nat) / 2 + (if 2 % 2 = 0 then 0 else 1) = 1 ∧
    (⟨[[7, 8], [0, 0]], none, 1, 1⟩ : BigIntS).lastIdx = none := by
  refine ⟨by decide, by decide, by decide, by decide⟩

/-- C6: with CHUNKSIZE = 2, the public sequence construct → bulkLoad 3 words →
bulkLoad 1 word leaves the stored chunk-count at 1 while 2 chunks are reachable from
head (the broken trim path), and bulkLoad of 0 words drives the stored chunk-count —
hence `length(container)` — to 0, violating `length ≥ 1`. -/
theorem bulkLoad_breaks_count_invariant :
    setValue 2 newBigInt 3 [1, 2, 3] = some ⟨[[1, 2], [3, 0]], some 1, 2, 1⟩ ∧
    setValue 2 ⟨[[1, 2], [3, 0]], some 1, 2, 1⟩ 1 [9]
      = some ⟨[[9], [0]], none, 1, 1⟩ ∧
    lengthBigInt (some ⟨[[9], [0]], none, 1, 1⟩) = 1 ∧
    (⟨[[9], [0]], none, 1, 1⟩ : BigIntS).chunks.length = 2 ∧
    setValue 2 newBigInt 0 [] = some ⟨[[]], some 0, 0, 1⟩ ∧
    lengthBigInt (some ⟨[[]], some 0, 0, 1⟩) < 1 := by
  refine ⟨by decide, by decide, by decide, by decide, by decide, by decide⟩

/-- C7, counterexample: with CHUNKSIZE = 8, bulkLoad of the single word 1 followed by
render yields `"10000000"` plus the terminating NUL — the 8 hex characters are
emitted least-significant nibble first — not the spec's most-significant-first
`"00000001"`. -/
theorem render_is_not_ms_nibble_first :
    (setValue 8 newBigInt 1 [1]).map toStringChars
      = some ['1', '0', '0', '0', '0', '0', '0', '0', Char.ofNat 0] ∧
    ([1].map specWordHex).flatten ++ [Char.ofNat 0]
      = ['0', '0', '0', '0', '0', '0', '0', '1', Char.ofNat 0] ∧
    (setValue 8 newBigInt 1 [1]).map toStringChars
      ≠ some (([1].map specWordHex).flatten ++ [Char.ofNat 0]) := by
  refine ⟨by decide, by decide, by decide⟩

/-- C8: with CHUNKSIZE = 2 and 3 source words, bulkLoad on a fresh container sets the
*final* chunk's valid length to `MIN(CHUNKSIZE, length) = 2` — `length` is the total
word count, never reduced to the words remaining — instead of the remainder
`3 % 2 = 1`, and fills its second slot from source index 3 ≥ wordCount (an
out-of-bounds read, modelled as 0). -/
theorem setValue_final_chunk_overlength :
    setValue 2 newBigInt 3 [1, 2, 3] = some ⟨[[1, 2], [3, 0]], some 1, 2, 1⟩ ∧
    chunkLen [[1, 2], [3, 0]] 1 = 2 ∧
    (3 : Nat) % 2 = 1 ∧
    chunkLen [[1, 2], [3, 0]] 1 ≠ 3 % 2 := by
  refine ⟨by decide, by decide, by decide, by decide⟩

/-- C9: `toString` allocates `1 + self->length * CHUNKSIZE` characters, omitting the
`charsPerUint` factor: with CHUNKSIZE = 2 and a full single chunk `[1, 2]` (built by
bulkLoad from a fresh container) it allocates 3 characters while the serialization
writes 17, and the spec's exact size `(chunk-count × C) × hexCharsPerWord + 1` is
17 — the buffer is under-sized, not exact. -/
theorem toString_buffer_size_wrong :
    setValue 2 newBigInt 2 [1, 2] = some ⟨[[1, 2]], some 0, 1, 1⟩ ∧
    toStringNumChars 2 ⟨[[1, 2]], some 0, 1, 1⟩ = 3 ∧
    specNumChars 2 ⟨[[1, 2]], some 0, 1, 1⟩ = 17 ∧
    ((toStringChars ⟨[[1, 2]], some 0, 1, 1⟩).length : Int) = 17 ∧
    toStringNumChars 2 ⟨[[1, 2]], some 0, 1, 1⟩
      < ((toStringChars ⟨[[1, 2]], some 0, 1, 1⟩).length : Int) := by
  refine ⟨by decide, by decide, by decide, by decide, by decide⟩

lemma specWordHex_reverse (w : Nat) : (specWordHex w).reverse = uintToHex w := by
  simp only [specWordHex, uintToHex, charsPerUint]
  norm_num [List.range_succ]

lemma range_map_getD (ws : List Nat) :
    (List.range ws.length).map (fun j => ws.getD j 0) = ws := by
  induction ws with
  | nil => rfl
  | cons w t ih =>
    rw [List.length_cons, List.range_succ_eq_map, List.map_cons, List.map_map]
    simp only [Function.comp_def, List.getD_cons_zero, List.getD_cons_succ]
    rw [ih]

lemma setValue_fresh_single_chunk (CHUNKSIZE : Nat) (ws : List Nat)
    (h1 : 1 ≤ ws.length) (hn : ws.length ≤ CHUNKSIZE) :
    setValue CHUNKSIZE newBigInt ws.length ws = some ⟨[ws], some 0, 1, 1⟩ := by
  have hCpos : 0 < CHUNKSIZE := by omega
  have hnum : ws.length / CHUNKSIZE + (if ws.length % CHUNKSIZE = 0 then 0 else 1)
      = 1 := by
    rcases Nat.lt_or_ge ws.length CHUNKSIZE with h | h
    · rw [Nat.div_eq_of_lt h, Nat.mod_eq_of_lt h, if_neg (by omega)]
    · have heq : ws.length = CHUNKSIZE := Nat.le_antisymm hn h
      rw [heq, Nat.div_self hCpos, Nat.mod_self, if_pos rfl]
  simp only [setValue, hnum, newBigInt]
  norm_num [extendLoop]
  simp only [copyChunks, Nat.min_eq_right hn, Nat.zero_add, range_map_getD]

/-- C7, amended: for any chunk capacity `C ≥ 5` and any 1-to-5-word array of 32-bit
words, bulkLoad on a fresh container followed by render yields exactly the
concatenation of each word's fixed-width zero-padded lowercase hexadecimal rendering
with the *least*-significant nibble first (the reverse of the spec's
most-significant-first rendering), in source-array order, with no separators and a
terminating null character. -/
theorem bulkLoad_render_roundtrip_ls_nibble_first (CHUNKSIZE : Nat) (ws : List Nat)
    (hC : 5 ≤ CHUNKSIZE) (h1 : 1 ≤ ws.length) (h5 : ws.length ≤ 5)
    (hw : ∀ w ∈ ws, w < wordMod) :
    (setValue CHUNKSIZE newBigInt ws.length ws).map toStringChars
      = some ((ws.map (fun w => (specWordHex w).reverse)).flatten ++ [Char.ofNat 0]) := by
  rw [setValue_fresh_single_chunk CHUNKSIZE ws h1 (le_trans h5 hC), Option.map_some']
  match ws, h1 with
  | w :: t, _ =>
    simp only [toStringChars, wordsOf, List.flatten_cons, List.flatten_nil,
      List.append_nil, specWordHex_reverse]

/-- C7, witness: the amended round-trip applied at CHUNKSIZE = 8 and the single word
1, rendered as `"10000000"` plus the terminating NUL. -/
theorem bulkLoad_render_roundtrip_ls_nibble_first_witness :
    (5 : Nat) ≤ 8 ∧ (1 : Nat) ≤ [1].length ∧ [1].length ≤ 5 ∧
    (∀ w ∈ [1], w < wordMod) ∧
    (setValue 8 newBigInt [1].length [1]).map toStringChars
      = some (([1].map (fun w => (specWordHex w).reverse)).flatten ++ [Char.ofNat 0]) :=
  ⟨by decide, by decide, by decide, by decide,
    bulkLoad_render_roundtrip_ls_nibble_first 8 [1]
      (by decide) (by decide) (by decide) (by decide)⟩

lemma replicate_getD {α : Type} (a d : α) :
    ∀ (n i : Nat), i < n → (List.replicate n a).getD i d = a := by
  intro n
  induction n with
  | zero => intro i h; omega
  | succ n ih =>
    intro i h
    cases i with
    | zero => rfl
    | succ i => exact ih i (by omega)

lemma replicate_set {α : Type} (a : α) :
    ∀ (n i : Nat), (List.replicate n a).set i a = List.replicate n a := by
  intro n
  induction n with
  | zero => intro i; rfl
  | succ n ih =>
    intro i
    cases i with
    | zero => rfl
    | succ i => exact congrArg (List.cons a) (ih i)

/-- The accumulator state reached after `k` iterations of the main loop of
`add(a, a)` on a freshly constructed container: `k + 1` one-word zero chunks, with
both cursors at word 0 of the tail chunk. -/
def aliasedState (k : Nat) : BigIntS :=
  ⟨List.replicate (k + 1) [0], some k, (k : Int) + 1, 1⟩

lemma aliasedState_get (k : Nat) : IT_get (aliasedState k).chunks (k, 0) = 0 := by
  simp only [IT_get, aliasedState]
  rw [replicate_getD [0] [] (k + 1) k (Nat.lt_succ_self k)]
  rfl

lemma aliasedState_set (k : Nat) :
    IT_set (aliasedState k).chunks (k, 0) 0 = (aliasedState k).chunks := by
  simp only [IT_set, aliasedState]
  rw [replicate_getD [0] [] (k + 1) k (Nat.lt_succ_self k)]
  exact replicate_set [0] (k + 1) k

lemma aliasedState_chunkLen (k n : Nat) (h : k < n) :
    chunkLen (List.replicate n ([0] : List Nat)) k = 1 := by
  simp only [chunkLen]
  rw [replicate_getD [0] [] n k h]
  rfl

lemma aliasedState_next (k : Nat) : IT_next (aliasedState k).chunks (k, 0) = none := by
  have hne : nextNonempty (List.replicate (k + 1) ([0] : List Nat)) (k + 1) = none := by
    simp only [nextNonempty, List.drop_replicate, Nat.sub_self, List.replicate_zero,
      List.findIdx?_nil, Option.map_none']
  show IT_next (List.replicate (k + 1) [0]) (k, 0) = none
  simp only [IT_next, aliasedState_chunkLen k (k + 1) (Nat.lt_succ_self k), hne]
  norm_num

lemma aliasedState_extend (k : Nat) :
    IT_next_with_extend (aliasedState k) (k, 0) = some (aliasedState (k + 1), k + 1, 0) := by
  have htake : (List.replicate (k + 1) ([0] : List Nat)).take (k + 1)
      = List.replicate (k + 1) [0] := by
    have h := List.take_length (List.replicate (k + 1) ([0] : List Nat))
    rwa [List.length_replicate] at h
  have happ : append (aliasedState k) [0]
      = some ⟨List.replicate (k + 1 + 1) [0], some (k + 1), (k : Int) + 1 + 1, 1⟩ := by
    simp only [append, aliasedState]
    rw [htake, ← List.replicate_succ' (k + 1) ([0] : List Nat)]
  have hst : (⟨List.replicate (k + 1 + 1) [0], some (k + 1), (k : Int) + 1 + 1, 1⟩ : BigIntS)
      = aliasedState (k + 1) := by
    simp only [aliasedState, BigIntS.mk.injEq, and_true, true_and]
    push_cast
    ring
  unfold IT_next_with_extend
  rw [aliasedState_next k]
  show (match append (aliasedState k) [0] with
        | none => none
        | some s2 => some (s2, k + 1, 0)) = some (aliasedState (k + 1), k + 1, 0)
  rw [happ, hst]

lemma aliasedState_ri_next (k : Nat) :
    IT_next (aliasedState (k + 1)).chunks (k, 0) = some (k + 1, 0) := by
  have hne : nextNonempty (List.replicate (k + 1 + 1) ([0] : List Nat)) (k + 1)
      = some (k + 1) := by
    simp only [nextNonempty, List.drop_replicate]
    have h2 : k + 1 + 1 - (k + 1) = 1 := by omega
    rw [h2]
    simp
  show IT_next (List.replicate (k + 1 + 1) [0]) (k, 0) = some (k + 1, 0)
  simp only [IT_next, aliasedState_chunkLen k (k + 1 + 1) (by omega), hne]
  norm_num

lemma addAliasedMainLoop_step (fuel k : Nat) :
    addAliasedMainLoop (fuel + 1) (aliasedState k) (k, 0) (some (k, 0)) 0
      = addAliasedMainLoop fuel (aliasedState (k + 1)) (k + 1, 0) (some (k + 1, 0)) 0 := by
  have heta : (⟨IT_set (aliasedState k).chunks (k, 0) 0, (aliasedState k).lastIdx,
      (aliasedState k).lengthF, (aliasedState k).parity⟩ : BigIntS) = aliasedState k := by
    rw [aliasedState_set]
  simp only [addAliasedMainLoop, aliasedState_get, Nat.add_zero, Nat.zero_add,
    Nat.zero_mod, heta, aliasedState_extend, aliasedState_ri_next]
  norm_num

lemma addAliasedMainLoop_diverges :
    ∀ (fuel k : Nat),
      addAliasedMainLoop fuel (aliasedState k) (k, 0) (some (k, 0)) 0 = none := by
  intro fuel
  induction fuel with
  | zero => intro k; rfl
  | succ fuel ih =>
    intro k
    rw [addAliasedMainLoop_step]
    exact ih (k + 1)

/-- C10: `add(a, a)` — both arguments the same container — never terminates: on the
freshly constructed container, every iteration of the main loop appends a new zero
chunk through the accumulator cursor's growth path, and the addend cursor (an alias
into the same chain) then advances into that very chunk, so the loop guard
`ri->chunk` never becomes NULL; for every fuel bound the loop interpreter fails to
finish (in C the loop allocates chunks forever). -/
theorem addAliased_never_terminates (fuel : Nat) :
    addAliased fuel newBigInt = none := by
  have h0 : newBigInt = aliasedState 0 := by
    simp only [newBigInt, aliasedState]
    norm_num
  have hiter : iterate (aliasedState 0).chunks = some (0, 0) := rfl
  rw [h0]
  simp only [addAliased, hiter, addAliasedMainLoop_diverges fuel 0]

end BigIntC
